import Mathlib

/-!
Verification of the spreadsheet-cleaning pipeline in `clean_data.py`.

Text values are modelled as `List Char` (ASCII text model of Python `str`).
Python exceptions (`ValueError`, `IndexError`) are modelled with
`Except String`; a `.error` value corresponds to an uncaught exception
aborting the run unless the source explicitly catches it.
-/

namespace CleanData

/-- ASCII model of Python `str.strip()` whitespace characters. -/
def isSpaceChar (c : Char) : Bool :=
  c = ' ' || c = '\t' || c = '\n' || c = '\r' || c = '\x0b' || c = '\x0c'

/-- Python `value.strip()`: drop whitespace from both ends. -/
def pyStrip (s : List Char) : List Char :=
  ((s.dropWhile isSpaceChar).reverse.dropWhile isSpaceChar).reverse

/-- Decimal value of a digit string, as computed by Python `int` on an
all-digit string. -/
def digitsToNat (s : List Char) : Nat :=
  s.foldl (fun acc c => acc * 10 + (c.toNat - '0'.toNat)) 0

/-- Model of Python `int(s)` on a string: strip whitespace, optional sign,
then one or more ASCII digits; `none` models a `ValueError`. -/
def pyInt (s : List Char) : Option Int :=
  match pyStrip s with
  | '-' :: ds =>
      if ds ≠ [] ∧ ds.all Char.isDigit then some (-(digitsToNat ds : Int)) else none
  | '+' :: ds =>
      if ds ≠ [] ∧ ds.all Char.isDigit then some (digitsToNat ds : Int) else none
  | ds =>
      if ds ≠ [] ∧ ds.all Char.isDigit then some (digitsToNat ds : Int) else none

/-- Python sequence indexing `l[i]` with negative-index support:
`none` models an `IndexError`. -/
def pyIndex {α : Type} (l : List α) (i : Int) : Option α :=
  if 0 ≤ i then
    if i < (l.length : Int) then l.get? i.toNat else none
  else
    if -(l.length : Int) ≤ i then l.get? ((l.length : Int) + i).toNat else none

/-- The body of the loop in `_column_name_to_index`: accumulate
`value = value * 26 + (ord(char.upper()) - ord('A') + 1)`, raising
`ValueError` on the first non-alphabetic character. -/
def columnValue : List Char → Nat → Except String Nat
  | [], acc => .ok acc
  | c :: rest, acc =>
      if c.isAlpha then
        columnValue rest (acc * 26 + (c.toUpper.toNat - 'A'.toNat + 1))
      else
        .error "Invalid column name"

/-- `_column_name_to_index(column)`: convert an Excel style column
(e.g. `A`, `AB`) to a zero-based index; returns `value - 1` over `Int`
(the Python function returns `-1` on the empty string). -/
def column_name_to_index (column : List Char) : Except String Int :=
  (columnValue column 0).map (fun v => (v : Int) - 1)

/-- `_clean_numeric(value)`: strip whitespace, reject the empty string and
any string that is not all digits, else parse as a non-negative integer. -/
def clean_numeric (value : List Char) : Except String Nat :=
  let cleaned := pyStrip value
  if cleaned = [] then .error "Empty numeric value"
  else if cleaned.all Char.isDigit then .ok (digitsToNat cleaned)
  else .error "Unexpected numeric value"

/-- A cleaned listing record, the dictionary built in `load_house_data`.
The six numeric fields are `Nat`: `_clean_numeric` only ever produces
non-negative integers. -/
structure Listing where
  name : List Char
  price : Nat
  building_area : Nat
  land_area : Nat
  bedrooms : Nat
  bathrooms : Nat
  garage : Nat
deriving DecidableEq, Repr

/-- The literal header `load_house_data` requires as the first row. -/
def expectedHeader : List (List Char) :=
  ["NO".toList, "NAMA RUMAH".toList, "HARGA".toList, "LB".toList,
   "LT".toList, "KT".toList, "KM".toList, "GRS".toList]

/-- Right-pad a row with empty strings to the 8-column header width, as the
cleaning loop of `load_house_data` does before reading columns 2-7. -/
def padRow (row : List (List Char)) : List (List Char) :=
  if row.length < expectedHeader.length then
    row ++ List.replicate (expectedHeader.length - row.length) []
  else row

/-- One iteration of the cleaning loop in `load_house_data`: right-pad the
row to 8 columns, clean the six numeric columns at positions 2-7, and build
the record; `none` models the `except ValueError: continue` path. -/
def parseListing (row : List (List Char)) : Option Listing :=
  (do
    let price ← clean_numeric ((padRow row).getD 2 [])
    let building_area ← clean_numeric ((padRow row).getD 3 [])
    let land_area ← clean_numeric ((padRow row).getD 4 [])
    let bedrooms ← clean_numeric ((padRow row).getD 5 [])
    let bathrooms ← clean_numeric ((padRow row).getD 6 [])
    let garage ← clean_numeric ((padRow row).getD 7 [])
    pure (Listing.mk (pyStrip ((padRow row).getD 1 [])) price building_area
      land_area bedrooms bathrooms garage) : Except String Listing).toOption

/-- The deduplication loop of `load_house_data`: `seen` models the
`seen_keys` set (a `Listing` is exactly the full seven-field key tuple);
a key is added only when its record is kept, as in the source. -/
def dedupGo (seen : List Listing) : List Listing → List Listing
  | [] => []
  | r :: rest =>
      if r ∈ seen then dedupGo seen rest
      else r :: dedupGo (r :: seen) rest

/-- `unique_rows` as computed by `load_house_data` from `cleaned_rows`. -/
def dedup (rows : List Listing) : List Listing := dedupGo [] rows

/-- `load_house_data` from the extracted row sequence onwards: empty row
set and header mismatch are fatal `ValueError`s; otherwise the remaining
rows are cleaned and deduplicated. -/
def load_house_data (rows : List (List (List Char))) : Except String (List Listing) :=
  match rows with
  | [] => .error "No rows found in workbook"
  | header :: data_rows =>
      if header = expectedHeader then
        .ok (dedup (data_rows.filterMap parseListing))
      else
        .error "Unexpected header"

/-- An XML cell element `<c>` of the sheet document, as `_iter_sheet_rows`
reads it: the `r` attribute (with the Python default `""`), the optional
`t` attribute, and the text of the `<v>` child.  `value = none` models a
missing `<v>` node and also a `<v>` node with no text (Python `None`):
the source treats both the same way through `raw_value or ""` and the
truthiness test guarding shared-string substitution. -/
structure Cell where
  reference : List Char
  cellType : Option (List Char)
  value : Option (List Char)
deriving DecidableEq, Repr

/-- `"".join(filter(str.isalpha, reference))`: every alphabetic character
of the reference, in order — not only the leading run. -/
def lettersOf (reference : List Char) : List Char :=
  reference.filter Char.isAlpha

/-- The value of one cell: read the `<v>` text (empty when absent), and
when the `t` attribute is `"s"` and the text is non-empty, substitute
`shared_strings[int(raw_value)]`; an unparseable integer or a Python
`IndexError` aborts the run. -/
def cellValue (shared : List (List Char)) (cell : Cell) : Except String (List Char) :=
  if cell.cellType = some ['s'] ∧ cell.value.getD [] ≠ [] then
    match pyInt (cell.value.getD []) with
    | none => .error "invalid literal for int"
    | some i =>
        match pyIndex shared i with
        | none => .error "list index out of range"
        | some s => .ok s
  else .ok (cell.value.getD [])

/-- Lookup in the model of the `cells` dict: the most recent binding of a
key wins, as dict assignment overwrites. -/
def lookupAssoc (m : List (Int × List Char)) (k : Int) : Option (List Char) :=
  (m.find? (fun p => p.1 = k)).map Prod.snd

/-- The inner cell loop of `_iter_sheet_rows`: skip cells whose reference
has no alphabetic character, resolve the column index of the others, track
the maximum index, and record the cell value under its index. -/
def buildCells (shared : List (List Char)) :
    List Cell → List (Int × List Char) → Int →
    Except String (List (Int × List Char) × Int)
  | [], acc, maxIdx => .ok (acc, maxIdx)
  | c :: rest, acc, maxIdx =>
      if lettersOf c.reference = [] then buildCells shared rest acc maxIdx
      else do
        let idx ← column_name_to_index (lettersOf c.reference)
        let v ← cellValue shared c
        buildCells shared rest ((idx, v) :: acc) (max maxIdx idx)

/-- One row element of `_iter_sheet_rows`: build the cell dict, then emit a
dense row of length `max_index + 1` when at least one cell was recorded
(`max_index >= 0`), and nothing (`none`) otherwise. -/
def processRow (shared : List (List Char)) (cells : List Cell) :
    Except String (Option (List (List Char))) := do
  let r ← buildCells shared cells [] (-1)
  if 0 ≤ r.2 then
    pure (some ((List.range (r.2.toNat + 1)).map
      (fun (i : Nat) => (lookupAssoc r.1 (i : Int)).getD [])))
  else
    pure none

/-- `_iter_sheet_rows` over the parsed row elements of the sheet document:
the rows emitted, in order, with omitted rows dropped; materialized eagerly
as `load_house_data` does with `list(...)`. -/
def iter_sheet_rows (shared : List (List Char)) :
    List (List Cell) → Except String (List (List (List Char)))
  | [] => .ok []
  | r :: rest => do
      let res ← processRow shared r
      let tail ← iter_sheet_rows shared rest
      match res with
      | none => pure tail
      | some row => pure (row :: tail)

/-- CSV field serialization, `csv.DictWriter` default dialect: quote a field
containing the delimiter, the quote character, or a line break, doubling
embedded quote characters. -/
def csvField (s : List Char) : List Char :=
  if s.any (fun c => c = ',' || c = '"' || c = '\n' || c = '\r') then
    '"' :: (s.flatMap (fun c => if c = '"' then ['"', '"'] else [c])) ++ ['"']
  else s

/-- The fixed CSV field-name order used by `export_to_csv`. -/
def fieldnames : List (List Char) :=
  ["name".toList, "price".toList, "building_area".toList, "land_area".toList,
   "bedrooms".toList, "bathrooms".toList, "garage".toList]

/-- Join fields with the `,` delimiter. -/
def csvLine (fields : List (List Char)) : List Char :=
  match fields with
  | [] => []
  | f :: rest => f ++ rest.flatMap (fun g => ',' :: g)

/-- The CSV line `writer.writerow(row)` produces for one listing record. -/
def listingLine (r : Listing) : List Char :=
  csvLine [csvField r.name, (toString r.price).toList,
    (toString r.building_area).toList, (toString r.land_area).toList,
    (toString r.bedrooms).toList, (toString r.bathrooms).toList,
    (toString r.garage).toList]

/-- `export_to_csv(rows, destination)`: fatal `ValueError` on an empty row
sequence, raised before the destination file is opened, so on error no file
is created or modified; on success the file content is the header line
followed by one line per record, modelled as the returned list of lines. -/
def export_to_csv (rows : List Listing) : Except String (List (List Char)) :=
  if rows = [] then .error "No data available to write"
  else .ok (csvLine fieldnames :: rows.map listingLine)

/-- Spec wording for row validation: a numeric column value is rejected
when, after trimming whitespace, it is empty or contains a non-digit
character. -/
def rejectedNumeric (v : List Char) : Prop :=
  pyStrip v = [] ∨ ∃ c ∈ pyStrip v, c.isDigit = false

instance (v : List Char) : Decidable (rejectedNumeric v) := by
  unfold rejectedNumeric; exact inferInstance

/-- Spec wording for the deduplicator: keep the record at position `i`
exactly when no earlier record in the sequence is equal to it; output in
first-occurrence order. -/
def specDedup (rows : List Listing) : List Listing :=
  (List.range rows.length).filterMap (fun i =>
    (rows.get? i).bind (fun r => if r ∈ rows.take i then none else some r))

/-- The base-26 digit value of a letter, digits 1-26, case-insensitive. -/
def letterDigit (c : Char) : Nat :=
  c.toUpper.toNat - 'A'.toNat + 1

/-- Spec wording for the column resolver: read the letters as a base-26
number with digit values 1-26. -/
def base26digits (cs : List Char) : Nat :=
  cs.foldl (fun acc c => acc * 26 + letterDigit c) 0

/-- The column indices the row extractor resolves from a row's cells, in
cell order: cells whose reference has no alphabetic character contribute
nothing. -/
def resolvedIndices (cells : List Cell) : List Int :=
  cells.filterMap (fun c =>
    if lettersOf c.reference = [] then none
    else (column_name_to_index (lettersOf c.reference)).toOption)

lemma except_bind_ok {α β : Type} (a : α) (f : α → Except String β) :
    (Except.ok a >>= f) = f a := rfl

lemma except_bind_error {α β : Type} (e : String) (f : α → Except String β) :
    ((Except.error e : Except String α) >>= f) = Except.error e := rfl

lemma except_toOption_error {α : Type} (e : String) :
    (Except.error e : Except String α).toOption = none := rfl

lemma except_toOption_ok {α : Type} (a : α) :
    (Except.ok a : Except String α).toOption = some a := rfl

lemma except_pure {α : Type} (a : α) :
    (pure a : Except String α) = Except.ok a := rfl

lemma clean_numeric_rejected {v : List Char} (h : rejectedNumeric v) :
    ∃ e, clean_numeric v = .error e := by
  by_cases h0 : pyStrip v = []
  · exact ⟨"Empty numeric value", by simp [clean_numeric, h0]⟩
  · rcases h with h | ⟨c, hc, hd⟩
    · exact absurd h h0
    · have hall : ¬ (pyStrip v).all Char.isDigit = true := by
        rw [List.all_eq_true]
        intro hall
        have := hall c hc
        rw [hd] at this
        exact Bool.false_ne_true this
      exact ⟨"Unexpected numeric value", by simp [clean_numeric, h0, hall]⟩

lemma clean_numeric_not_rejected {v : List Char} (h : ¬ rejectedNumeric v) :
    clean_numeric v = .ok (digitsToNat (pyStrip v)) := by
  rw [rejectedNumeric] at h
  push_neg at h
  obtain ⟨h0, hd⟩ := h
  have hall : (pyStrip v).all Char.isDigit = true := by
    rw [List.all_eq_true]
    intro c hc
    simpa using hd c hc
  simp [clean_numeric, h0, hall]

lemma parseListing_eq (row : List (List Char)) :
    parseListing row =
      if rejectedNumeric ((padRow row).getD 2 []) ∨ rejectedNumeric ((padRow row).getD 3 []) ∨
         rejectedNumeric ((padRow row).getD 4 []) ∨ rejectedNumeric ((padRow row).getD 5 []) ∨
         rejectedNumeric ((padRow row).getD 6 []) ∨ rejectedNumeric ((padRow row).getD 7 []) then
        none
      else
        some (Listing.mk (pyStrip ((padRow row).getD 1 []))
          (digitsToNat (pyStrip ((padRow row).getD 2 [])))
          (digitsToNat (pyStrip ((padRow row).getD 3 [])))
          (digitsToNat (pyStrip ((padRow row).getD 4 [])))
          (digitsToNat (pyStrip ((padRow row).getD 5 [])))
          (digitsToNat (pyStrip ((padRow row).getD 6 [])))
          (digitsToNat (pyStrip ((padRow row).getD 7 [])))) := by
  simp only [parseListing]
  by_cases h2 : rejectedNumeric ((padRow row).getD 2 [])
  · obtain ⟨e, he⟩ := clean_numeric_rejected h2
    rw [he, except_bind_error, except_toOption_error, if_pos (Or.inl h2)]
  rw [clean_numeric_not_rejected h2, except_bind_ok]
  by_cases h3 : rejectedNumeric ((padRow row).getD 3 [])
  · obtain ⟨e, he⟩ := clean_numeric_rejected h3
    rw [he, except_bind_error, except_toOption_error, if_pos (Or.inr (Or.inl h3))]
  rw [clean_numeric_not_rejected h3, except_bind_ok]
  by_cases h4 : rejectedNumeric ((padRow row).getD 4 [])
  · obtain ⟨e, he⟩ := clean_numeric_rejected h4
    rw [he, except_bind_error, except_toOption_error,
      if_pos (Or.inr (Or.inr (Or.inl h4)))]
  rw [clean_numeric_not_rejected h4, except_bind_ok]
  by_cases h5 : rejectedNumeric ((padRow row).getD 5 [])
  · obtain ⟨e, he⟩ := clean_numeric_rejected h5
    rw [he, except_bind_error, except_toOption_error,
      if_pos (Or.inr (Or.inr (Or.inr (Or.inl h5))))]
  rw [clean_numeric_not_rejected h5, except_bind_ok]
  by_cases h6 : rejectedNumeric ((padRow row).getD 6 [])
  · obtain ⟨e, he⟩ := clean_numeric_rejected h6
    rw [he, except_bind_error, except_toOption_error,
      if_pos (Or.inr (Or.inr (Or.inr (Or.inr (Or.inl h6)))))]
  rw [clean_numeric_not_rejected h6, except_bind_ok]
  by_cases h7 : rejectedNumeric ((padRow row).getD 7 [])
  · obtain ⟨e, he⟩ := clean_numeric_rejected h7
    rw [he, except_bind_error, except_toOption_error,
      if_pos (Or.inr (Or.inr (Or.inr (Or.inr (Or.inr h7)))))]
  rw [clean_numeric_not_rejected h7, except_bind_ok, except_pure, except_toOption_ok,
    if_neg (by tauto)]

/-- C1: a data row is silently dropped by the cleaning loop if and only if
one of the six numeric columns at positions 2-7 of the (right-padded) row,
after trimming whitespace, is empty or contains a non-digit character;
every surviving row maps to a listing record whose six numeric fields are
the parsed non-negative integer values of those columns (non-negative by
the `Nat` type) and whose name field is column 1 trimmed of surrounding
whitespace. -/
theorem C1_row_validation (row : List (List Char)) :
    (parseListing row = none ↔
      rejectedNumeric ((padRow row).getD 2 []) ∨ rejectedNumeric ((padRow row).getD 3 []) ∨
      rejectedNumeric ((padRow row).getD 4 []) ∨ rejectedNumeric ((padRow row).getD 5 []) ∨
      rejectedNumeric ((padRow row).getD 6 []) ∨ rejectedNumeric ((padRow row).getD 7 [])) ∧
    (∀ l : Listing, parseListing row = some l →
      l.name = pyStrip ((padRow row).getD 1 []) ∧
      l.price = digitsToNat (pyStrip ((padRow row).getD 2 [])) ∧
      l.building_area = digitsToNat (pyStrip ((padRow row).getD 3 [])) ∧
      l.land_area = digitsToNat (pyStrip ((padRow row).getD 4 [])) ∧
      l.bedrooms = digitsToNat (pyStrip ((padRow row).getD 5 [])) ∧
      l.bathrooms = digitsToNat (pyStrip ((padRow row).getD 6 [])) ∧
      l.garage = digitsToNat (pyStrip ((padRow row).getD 7 []))) := by
  rw [parseListing_eq row]
  by_cases h : rejectedNumeric ((padRow row).getD 2 []) ∨ rejectedNumeric ((padRow row).getD 3 []) ∨
      rejectedNumeric ((padRow row).getD 4 []) ∨ rejectedNumeric ((padRow row).getD 5 []) ∨
      rejectedNumeric ((padRow row).getD 6 []) ∨ rejectedNumeric ((padRow row).getD 7 [])
  · rw [if_pos h]
    exact ⟨⟨fun _ => h, fun _ => rfl⟩, fun l hl => Option.noConfusion hl⟩
  · rw [if_neg h]
    refine ⟨iff_of_false (fun hs => Option.noConfusion hs) h, ?_⟩
    intro l hl
    cases Option.some.inj hl
    exact ⟨rfl, rfl, rfl, rfl, rfl, rfl, rfl⟩

/-- Witness for C1 at concrete rows: a row with price `12a000` is dropped,
a row with price `0` is kept and its record carries the parsed values. -/
theorem C1_row_validation_witness :
    parseListing [" 1 ".toList, "Foo".toList, "12a000".toList, "1".toList,
        "2".toList, "3".toList, "4".toList, "5".toList] = none ∧
    parseListing [" 1 ".toList, " Foo ".toList, "0".toList, "1".toList,
        "2".toList, "3".toList, "4".toList, "5".toList] ≠ none ∧
    (Listing.mk "Foo".toList 0 1 2 3 4 5).price =
      digitsToNat (pyStrip ((padRow [" 1 ".toList, " Foo ".toList, "0".toList,
        "1".toList, "2".toList, "3".toList, "4".toList, "5".toList]).getD 2 [])) := by
  refine ⟨?_, ?_, ?_⟩
  · exact (C1_row_validation _).1.mpr (Or.inl (by decide))
  · intro h
    exact absurd ((C1_row_validation [" 1 ".toList, " Foo ".toList, "0".toList, "1".toList,
      "2".toList, "3".toList, "4".toList, "5".toList]).1.mp h) (by decide)
  · exact ((C1_row_validation _).2 (Listing.mk "Foo".toList 0 1 2 3 4 5) (by decide)).2.1

/-- C2: `load_house_data` fails with a fatal error, producing no listing
records, exactly when the first extracted row differs from the literal
8-element header; when it matches, processing continues on the remaining
rows only (clean, then deduplicate). -/
theorem C2_header_check (header : List (List Char)) (ds : List (List (List Char))) :
    (header ≠ expectedHeader → load_house_data (header :: ds) = .error "Unexpected header") ∧
    (header = expectedHeader →
      load_house_data (header :: ds) = .ok (dedup (ds.filterMap parseListing))) := by
  constructor
  · intro h
    simp [load_house_data, h]
  · intro h
    simp [load_house_data, h]

/-- Witness for C2: a one-column header row is rejected fatally; the exact
expected header is accepted, yielding the (empty) record list. -/
theorem C2_header_check_witness :
    load_house_data [["X".toList]] = .error "Unexpected header" ∧
    load_house_data [expectedHeader] = .ok [] := by
  constructor
  · exact (C2_header_check ["X".toList] []).1 (by decide)
  · exact (C2_header_check expectedHeader []).2 rfl

lemma dedupGo_spec (rows : List Listing) : ∀ (pre seen : List Listing),
    (∀ x : Listing, x ∈ seen ↔ x ∈ pre) →
    dedupGo seen rows =
      (List.range rows.length).filterMap (fun i =>
        (rows.get? i).bind (fun x => if x ∈ pre ++ rows.take i then none else some x)) := by
  induction rows with
  | nil =>
      intro pre seen hmem
      simp [dedupGo]
  | cons r rest ih =>
      intro pre seen hmem
      rw [List.length_cons, List.range_succ_eq_map, List.filterMap_cons, List.filterMap_map]
      have hfun : ((fun i => ((r :: rest).get? i).bind
            (fun x => if x ∈ pre ++ (r :: rest).take i then none else some x)) ∘ Nat.succ) =
          (fun i => (rest.get? i).bind
            (fun x => if x ∈ (pre ++ [r]) ++ rest.take i then none else some x)) := by
        funext i
        simp only [Function.comp, List.get?_cons_succ, List.take_succ_cons]
        cases hx : rest.get? i with
        | none => rfl
        | some x =>
            show (if x ∈ pre ++ r :: rest.take i then none else some x) =
              (if x ∈ (pre ++ [r]) ++ rest.take i then none else some x)
            exact if_congr (by rw [List.append_cons]) rfl rfl
      rw [hfun]
      by_cases hr : r ∈ pre
      · have hhead : ((r :: rest).get? 0).bind
            (fun x => if x ∈ pre ++ (r :: rest).take 0 then none else some x) = none := by
          simp [hr]
        rw [hhead, dedupGo, if_pos ((hmem r).mpr hr)]
        exact ih (pre ++ [r]) seen (fun x => (hmem x).trans
          (by simp only [List.mem_append, List.mem_cons, List.not_mem_nil, or_false]
              exact ⟨fun h => Or.inl h, fun h => h.elim id (fun he => he ▸ hr)⟩))
      · have hhead : ((r :: rest).get? 0).bind
            (fun x => if x ∈ pre ++ (r :: rest).take 0 then none else some x) = some r := by
          simp [hr]
        rw [hhead, dedupGo, if_neg (fun hs => hr ((hmem r).mp hs))]
        congr 1
        exact ih (pre ++ [r]) (r :: seen) (fun x =>
          by simp only [List.mem_cons, List.mem_append, List.not_mem_nil, or_false, hmem x]
             exact or_comm)

/-- C3: the deduplicator agrees with the first-occurrence specification —
a record is kept exactly when no earlier record of the sequence equals it
on all seven fields, in first-occurrence order — and two records differing
in any field are both kept. -/
theorem C3_dedup_first_occurrence (rows : List Listing) :
    dedup rows = specDedup rows ∧
    ∀ a b : Listing, a ≠ b → dedup [a, b] = [a, b] := by
  constructor
  · rw [dedup, specDedup, dedupGo_spec rows [] [] (fun x => Iff.rfl)]
    simp only [List.nil_append]
  · intro a b hab
    simp [dedup, dedupGo, hab, Ne.symm hab]

/-- Witness for C3: an exact duplicate pair collapses to the first
occurrence, and two records differing only in name are both kept. -/
theorem C3_dedup_first_occurrence_witness :
    dedup [Listing.mk "a".toList 1 2 3 4 5 6, Listing.mk "a".toList 1 2 3 4 5 6,
        Listing.mk "b".toList 1 2 3 4 5 6] =
      specDedup [Listing.mk "a".toList 1 2 3 4 5 6, Listing.mk "a".toList 1 2 3 4 5 6,
        Listing.mk "b".toList 1 2 3 4 5 6] ∧
    dedup [Listing.mk "a".toList 1 2 3 4 5 6, Listing.mk "b".toList 1 2 3 4 5 6] =
      [Listing.mk "a".toList 1 2 3 4 5 6, Listing.mk "b".toList 1 2 3 4 5 6] := by
  constructor
  · exact (C3_dedup_first_occurrence _).1
  · exact (C3_dedup_first_occurrence []).2 _ _ (by decide)

lemma columnValue_all_alpha (cs : List Char) : ∀ acc : Nat,
    (∀ c ∈ cs, c.isAlpha = true) →
    columnValue cs acc = .ok (cs.foldl (fun a c => a * 26 + letterDigit c) acc) := by
  induction cs with
  | nil => intro acc _; rfl
  | cons c rest ih =>
      intro acc h
      have hc : c.isAlpha = true := h c (List.mem_cons_self c rest)
      rw [columnValue, if_pos hc, List.foldl_cons]
      exact ih _ (fun x hx => h x (List.mem_cons_of_mem c hx))

lemma column_name_to_index_all_alpha (cs : List Char)
    (h : ∀ c ∈ cs, c.isAlpha = true) :
    column_name_to_index cs = .ok ((base26digits cs : Int) - 1) := by
  rw [column_name_to_index, columnValue_all_alpha cs 0 h]
  rfl

/-- C4: on a non-empty all-alphabetic string the column resolver returns
the base-26 value of the letters (digit values 1-26) minus 1, and the
result is case-insensitive: any all-alphabetic string with the same
uppercased letters resolves to the same index. -/
theorem C4_column_resolver (cs : List Char) (h1 : cs ≠ [])
    (h2 : ∀ c ∈ cs, c.isAlpha = true) :
    column_name_to_index cs = .ok ((base26digits cs : Int) - 1) ∧
    ∀ ds : List Char, (∀ c ∈ ds, c.isAlpha = true) →
      ds.map Char.toUpper = cs.map Char.toUpper →
      column_name_to_index ds = column_name_to_index cs := by
  refine ⟨column_name_to_index_all_alpha cs h2, ?_⟩
  intro ds hds hmap
  rw [column_name_to_index_all_alpha ds hds, column_name_to_index_all_alpha cs h2]
  have key : ∀ es : List Char, base26digits es =
      (es.map Char.toUpper).foldl (fun a c => a * 26 + (c.toNat - 'A'.toNat + 1)) 0 := by
    intro es
    rw [List.foldl_map]
    rfl
  rw [key ds, key cs, hmap]

/-- Witness for C4: `A` resolves to 0, `Z` to 25, `AA` to 26, `AB` to 27,
and lowercase `ab` resolves the same as `AB`. -/
theorem C4_column_resolver_witness :
    column_name_to_index "A".toList = .ok 0 ∧
    column_name_to_index "Z".toList = .ok 25 ∧
    column_name_to_index "AA".toList = .ok 26 ∧
    column_name_to_index "AB".toList = .ok 27 ∧
    column_name_to_index "ab".toList = column_name_to_index "AB".toList := by
  refine ⟨?_, ?_, ?_, ?_, ?_⟩
  · rw [(C4_column_resolver "A".toList (by decide) (by decide)).1]
    have : ((base26digits "A".toList : Int) - 1) = 0 := by decide
    rw [this]
  · rw [(C4_column_resolver "Z".toList (by decide) (by decide)).1]
    have : ((base26digits "Z".toList : Int) - 1) = 25 := by decide
    rw [this]
  · rw [(C4_column_resolver "AA".toList (by decide) (by decide)).1]
    have : ((base26digits "AA".toList : Int) - 1) = 26 := by decide
    rw [this]
  · rw [(C4_column_resolver "AB".toList (by decide) (by decide)).1]
    have : ((base26digits "AB".toList : Int) - 1) = 27 := by decide
    rw [this]
  · exact (C4_column_resolver "AB".toList (by decide) (by decide)).2
      "ab".toList (by decide) (by decide)

lemma lettersOf_all_alpha (ref : List Char) :
    ∀ c ∈ lettersOf ref, c.isAlpha = true :=
  fun c hc => (List.mem_filter.mp hc).2

lemma foldl_step_le (cs : List Char) : ∀ acc : Nat,
    acc ≤ cs.foldl (fun a c => a * 26 + letterDigit c) acc := by
  induction cs with
  | nil => intro acc; exact Nat.le_refl acc
  | cons c rest ih =>
      intro acc
      rw [List.foldl_cons]
      refine le_trans ?_ (ih _)
      calc acc = acc * 1 := (Nat.mul_one acc).symm
        _ ≤ acc * 26 := Nat.mul_le_mul_left acc (by norm_num)
        _ ≤ acc * 26 + letterDigit c := Nat.le_add_right _ _

lemma base26digits_pos (cs : List Char) (h : cs ≠ []) : 1 ≤ base26digits cs := by
  cases cs with
  | nil => exact absurd rfl h
  | cons c rest =>
      rw [base26digits, List.foldl_cons]
      refine le_trans ?_ (foldl_step_le rest _)
      have : letterDigit c = c.toUpper.toNat - 'A'.toNat + 1 := rfl
      omega

lemma resolvedIndices_cons_nil {c : Cell} (rest : List Cell)
    (h : lettersOf c.reference = []) :
    resolvedIndices (c :: rest) = resolvedIndices rest := by
  rw [resolvedIndices, List.filterMap_cons]
  simp only [h, if_pos]
  rfl

lemma resolvedIndices_cons {c : Cell} (rest : List Cell)
    (h : lettersOf c.reference ≠ []) :
    resolvedIndices (c :: rest) =
      ((base26digits (lettersOf c.reference) : Int) - 1) :: resolvedIndices rest := by
  rw [resolvedIndices, List.filterMap_cons, if_neg h,
    column_name_to_index_all_alpha _ (lettersOf_all_alpha c.reference)]
  rfl

lemma resolvedIndices_nonneg (cells : List Cell) :
    ∀ k ∈ resolvedIndices cells, 0 ≤ k := by
  intro k hk
  obtain ⟨c, hc, heq⟩ := List.mem_filterMap.mp hk
  by_cases hl : lettersOf c.reference = []
  · rw [if_pos hl] at heq
    exact Option.noConfusion heq
  · rw [if_neg hl, column_name_to_index_all_alpha _ (lettersOf_all_alpha c.reference)] at heq
    have hb := base26digits_pos _ hl
    have : ((base26digits (lettersOf c.reference) : Int) - 1) = k := Option.some.inj heq
    omega

lemma resolvedIndices_eq_nil_iff (cells : List Cell) :
    resolvedIndices cells = [] ↔ ∀ c ∈ cells, lettersOf c.reference = [] := by
  rw [resolvedIndices, List.filterMap_eq_nil_iff]
  constructor
  · intro h c hc
    have hce := h c hc
    by_contra hne
    rw [if_neg hne, column_name_to_index_all_alpha _ (lettersOf_all_alpha _)] at hce
    exact Option.noConfusion hce
  · intro h c hc
    rw [if_pos (h c hc)]

lemma le_foldl_max (l : List Int) : ∀ a : Int, a ≤ l.foldl max a := by
  induction l with
  | nil => intro a; exact le_refl a
  | cons x l ih =>
      intro a
      rw [List.foldl_cons]
      exact le_trans (le_max_left a x) (ih (max a x))

lemma mem_le_foldl_max (l : List Int) : ∀ (a x : Int), x ∈ l → x ≤ l.foldl max a := by
  induction l with
  | nil => intro a x hx; exact absurd hx (List.not_mem_nil x)
  | cons y l ih =>
      intro a x hx
      rw [List.foldl_cons]
      rcases List.mem_cons.mp hx with rfl | hx'
      · exact le_trans (le_max_right a x) (le_foldl_max l (max a x))
      · exact ih (max a y) x hx'

lemma lookupAssoc_nil (k : Int) : lookupAssoc [] k = none := rfl

lemma lookupAssoc_cons_none (i₀ : Int) (v : List Char)
    (m : List (Int × List Char)) (k : Int) :
    lookupAssoc ((i₀, v) :: m) k = none ↔ (i₀ ≠ k ∧ lookupAssoc m k = none) := by
  by_cases h : i₀ = k
  · simp [lookupAssoc, List.find?_cons, h]
  · simp [lookupAssoc, List.find?_cons, h]

lemma buildCells_invariant (shared : List (List Char)) (cells : List Cell) :
    ∀ (acc : List (Int × List Char)) (maxIdx : Int)
      (out : List (Int × List Char) × Int),
      buildCells shared cells acc maxIdx = .ok out →
      out.2 = (resolvedIndices cells).foldl max maxIdx ∧
      ∀ k : Int, lookupAssoc out.1 k = none ↔
        (lookupAssoc acc k = none ∧ k ∉ resolvedIndices cells) := by
  induction cells with
  | nil =>
      intro acc maxIdx out h
      cases Except.ok.inj h
      constructor
      · rfl
      · intro k
        simp [resolvedIndices]
  | cons c rest ih =>
      intro acc maxIdx out h
      by_cases hc : lettersOf c.reference = []
      · rw [buildCells, if_pos hc] at h
        obtain ⟨h1, h2⟩ := ih acc maxIdx out h
        refine ⟨?_, ?_⟩
        · rw [h1, resolvedIndices_cons_nil rest hc]
        · intro k
          rw [h2 k, resolvedIndices_cons_nil rest hc]
      · rw [buildCells, if_neg hc,
          column_name_to_index_all_alpha _ (lettersOf_all_alpha c.reference),
          except_bind_ok] at h
        cases hv : cellValue shared c with
        | error e =>
            rw [hv, except_bind_error] at h
            exact Except.noConfusion h
        | ok v =>
            rw [hv, except_bind_ok] at h
            obtain ⟨h1, h2⟩ := ih _ _ out h
            refine ⟨?_, ?_⟩
            · rw [h1, resolvedIndices_cons rest hc, List.foldl_cons]
            · intro k
              rw [h2 k, resolvedIndices_cons rest hc, lookupAssoc_cons_none]
              simp only [List.mem_cons]
              constructor
              · rintro ⟨⟨hne, hacc⟩, hnot⟩
                exact ⟨hacc, fun hm => hm.elim (fun he => hne he.symm) hnot⟩
              · rintro ⟨hacc, hnot⟩
                exact ⟨⟨fun he => hnot (Or.inl he.symm), hacc⟩,
                  fun hm => hnot (Or.inr hm)⟩

lemma getD_map_range (n : Nat) (f : Nat → List Char) (i : Nat) :
    ((List.range n).map f).getD i [] = if i < n then f i else [] := by
  by_cases hi : i < n
  · rw [if_pos hi, List.getD, List.get?_eq_getElem?, List.getElem?_map,
      List.getElem?_range hi]
    rfl
  · rw [if_neg hi, List.getD, List.get?_eq_none.mpr]
    · rfl
    · rw [List.length_map, List.length_range]
      omega

/-- C5: when row extraction succeeds on a row element, the row is omitted
exactly when no cell of the element has a resolvable (alphabetic) column
reference; otherwise the emitted row has length equal to the maximum
resolved column index plus one, and holds the empty string at every
position not resolved from some cell. -/
theorem C5_row_shape (shared : List (List Char)) (cells : List Cell)
    (res : Option (List (List Char))) (h : processRow shared cells = .ok res) :
    (res = none ↔ ∀ c ∈ cells, lettersOf c.reference = []) ∧
    ∀ row, res = some row →
      (row.length : Int) = (resolvedIndices cells).foldl max (-1) + 1 ∧
      ∀ i : Nat, (i : Int) ∉ resolvedIndices cells → row.getD i [] = [] := by
  rw [processRow] at h
  cases hb : buildCells shared cells [] (-1) with
  | error e =>
      rw [hb, except_bind_error] at h
      exact Except.noConfusion h
  | ok out =>
      rw [hb, except_bind_ok] at h
      obtain ⟨hmax, hlook⟩ := buildCells_invariant shared cells [] (-1) out hb
      have hlook' : ∀ k : Int, lookupAssoc out.1 k = none ↔ k ∉ resolvedIndices cells := by
        intro k
        rw [hlook k, lookupAssoc_nil]
        simp
      by_cases hpos : 0 ≤ out.2
      · rw [if_pos hpos, except_pure] at h
        have hres := (Except.ok.inj h).symm
        have hnonnil : resolvedIndices cells ≠ [] := by
          intro hnil
          rw [hmax, hnil] at hpos
          exact absurd hpos (by norm_num)
        constructor
        · rw [hres]
          refine iff_of_false (fun hn => Option.noConfusion hn) ?_
          intro hall
          exact hnonnil ((resolvedIndices_eq_nil_iff cells).mpr hall)
        · intro row hrow
          rw [hres] at hrow
          cases Option.some.inj hrow
          constructor
          · rw [List.length_map, List.length_range, Nat.cast_add, Nat.cast_one,
              Int.toNat_of_nonneg hpos, hmax]
          · intro i hmem
            rw [getD_map_range]
            by_cases hi : i < out.2.toNat + 1
            · rw [if_pos hi, (hlook' (i : Int)).mpr hmem]
              rfl
            · rw [if_neg hi]
      · rw [if_neg hpos, except_pure] at h
        have hres := (Except.ok.inj h).symm
        have hnil : resolvedIndices cells = [] := by
          rcases hn : resolvedIndices cells with _ | ⟨x, l⟩
          · rfl
          · exfalso
            have hx : x ∈ resolvedIndices cells := by rw [hn]; exact List.mem_cons_self x l
            have h0 : (0 : Int) ≤ x := resolvedIndices_nonneg cells x hx
            have hle : x ≤ (resolvedIndices cells).foldl max (-1) :=
              mem_le_foldl_max _ _ _ hx
            rw [← hmax] at hle
            omega
        constructor
        · rw [hres]
          exact iff_of_true rfl ((resolvedIndices_eq_nil_iff cells).mp hnil)
        · intro row hrow
          rw [hres] at hrow
          exact Option.noConfusion hrow

/-- Witness for C5: a row element with cells only at references `A1` and
`C1` yields a 3-element row with the empty string at index 1, and a row
element with no resolvable cell is omitted. -/
theorem C5_row_shape_witness :
    ((3 : Nat) : Int) =
      (resolvedIndices [Cell.mk "A1".toList none (some "x".toList),
        Cell.mk "C1".toList none (some "y".toList)]).foldl max (-1) + 1 ∧
    ["x".toList, [], "y".toList].getD 1 [] = [] ∧
    (none : Option (List (List Char))) = none := by
  have h := C5_row_shape [] [Cell.mk "A1".toList none (some "x".toList),
      Cell.mk "C1".toList none (some "y".toList)]
      (some ["x".toList, [], "y".toList]) (by rfl)
  obtain ⟨hlen, hemp⟩ := h.2 ["x".toList, [], "y".toList] rfl
  have h2 := C5_row_shape [] [Cell.mk "123".toList none (some "x".toList)] none (by rfl)
  exact ⟨hlen, hemp 1 (by decide), h2.1.mpr (by decide)⟩

lemma pyIndex_eq_none_iff {α : Type} (l : List α) (i : Int) :
    pyIndex l i = none ↔ (i < -(l.length : Int) ∨ (l.length : Int) ≤ i) := by
  rw [pyIndex]
  by_cases h0 : 0 ≤ i
  · rw [if_pos h0]
    by_cases h1 : i < (l.length : Int)
    · rw [if_pos h1, List.get?_eq_none]
      omega
    · rw [if_neg h1]
      exact iff_of_true rfl (Or.inr (by omega))
  · rw [if_neg h0]
    by_cases h1 : -(l.length : Int) ≤ i
    · rw [if_pos h1, List.get?_eq_none]
      omega
    · rw [if_neg h1]
      exact iff_of_true rfl (Or.inl (by omega))

lemma pyIndex_in_range {α : Type} (l : List α) (i : Int)
    (h1 : -(l.length : Int) ≤ i) (h2 : i < (l.length : Int)) :
    pyIndex l i = l.get? (if 0 ≤ i then i.toNat else ((l.length : Int) + i).toNat) := by
  rw [pyIndex]
  by_cases h0 : 0 ≤ i
  · rw [if_pos h0, if_pos h2, if_pos h0]
  · rw [if_neg h0, if_pos h1, if_neg h0]

/-- C6 counterexample: the cell value text `-1` parses as the integer −1,
which is not a zero-based position of the one-entry shared-string table,
yet row extraction raises no error: Python negative indexing makes the
code silently substitute the table entry `a` (the claim asserts an error
must be signalled and no entry substituted). -/
theorem C6_shared_index_counterexample :
    pyInt "-1".toList = some (-1) ∧
    ((-1 : Int) < 0 ∨ (([["a".toList]] : List (List (List Char))).length : Int) ≤ -1) ∧
    cellValue ["a".toList] (Cell.mk "A1".toList (some ['s']) (some "-1".toList)) =
      .ok "a".toList ∧
    processRow ["a".toList] [Cell.mk "A1".toList (some ['s']) (some "-1".toList)] =
      .ok (some ["a".toList]) :=
  ⟨rfl, Or.inl (by norm_num), rfl, rfl⟩

/-- C6 amended: for a shared-string cell whose non-empty value text parses
as the integer `i`, extraction errors exactly when `i` is out of range in
the Python sense (`i < -len` or `i ≥ len`); any `i` with `-len ≤ i < len`
is accepted, a negative `i` silently substituting the entry at position
`len + i` from the end of the table. -/
theorem C6_shared_index_amended (shared : List (List Char)) (cell : Cell)
    (v : List Char) (i : Int)
    (ht : cell.cellType = some ['s']) (hv : cell.value = some v) (hne : v ≠ [])
    (hi : pyInt v = some i) :
    ((i < -(shared.length : Int) ∨ (shared.length : Int) ≤ i) →
      cellValue shared cell = .error "list index out of range") ∧
    (-(shared.length : Int) ≤ i → i < (shared.length : Int) →
      ∃ s, shared.get? (if 0 ≤ i then i.toNat else ((shared.length : Int) + i).toNat) =
        some s ∧ cellValue shared cell = .ok s) := by
  have hraw : cell.value.getD [] = v := by rw [hv]; rfl
  constructor
  · intro hout
    rw [cellValue, hraw, if_pos ⟨ht, hne⟩, hi]
    show (match pyIndex shared i with
      | none => (Except.error "list index out of range" : Except String (List Char))
      | some s => Except.ok s) = Except.error "list index out of range"
    rw [(pyIndex_eq_none_iff shared i).mpr hout]
  · intro hlo hhi
    cases hg : shared.get? (if 0 ≤ i then i.toNat else ((shared.length : Int) + i).toNat) with
    | none =>
        exfalso
        rw [List.get?_eq_none] at hg
        by_cases h0 : 0 ≤ i
        · rw [if_pos h0] at hg
          omega
        · rw [if_neg h0] at hg
          omega
    | some s =>
        refine ⟨s, rfl, ?_⟩
        rw [cellValue, hraw, if_pos ⟨ht, hne⟩, hi]
        show (match pyIndex shared i with
          | none => (Except.error "list index out of range" : Except String (List Char))
          | some s => Except.ok s) = Except.ok s
        rw [pyIndex_in_range shared i hlo hhi, hg]

/-- Witness for the amended C6: on a two-entry table, index text `-1`
resolves to the last entry `b` at position 1; index text `5` on a
one-entry table is a fatal out-of-range error. -/
theorem C6_shared_index_amended_witness :
    (∃ s, (["a".toList, "b".toList] : List (List Char)).get? 1 = some s ∧
      cellValue ["a".toList, "b".toList]
        (Cell.mk "A1".toList (some ['s']) (some "-1".toList)) = .ok s) ∧
    cellValue ["a".toList] (Cell.mk "A1".toList (some ['s']) (some "5".toList)) =
      .error "list index out of range" := by
  constructor
  · have h := (C6_shared_index_amended ["a".toList, "b".toList]
        (Cell.mk "A1".toList (some ['s']) (some "-1".toList)) "-1".toList (-1)
        rfl rfl (by decide) rfl).2 (by norm_num) (by norm_num)
    simpa using h
  · exact (C6_shared_index_amended ["a".toList]
      (Cell.mk "A1".toList (some ['s']) (some "5".toList)) "5".toList 5
      rfl rfl (by decide) rfl).1 (Or.inr (by norm_num))

/-- C7 counterexample: for the reference `A1B` the code resolves the
column from all alphabetic characters (`AB`, index 27), not from the
leading alphabetic run (`A`, index 0): a character after the first
non-alphabetic character does influence the resolved index. -/
theorem C7_leading_run_counterexample :
    lettersOf "A1B".toList = "AB".toList ∧
    "A1B".toList.takeWhile Char.isAlpha = "A".toList ∧
    column_name_to_index (lettersOf "A1B".toList) = .ok 27 ∧
    column_name_to_index ("A1B".toList.takeWhile Char.isAlpha) = .ok 0 ∧
    (27 : Int) ≠ 0 :=
  ⟨rfl, rfl, rfl, rfl, by norm_num⟩

/-- C7 amended: the column index is resolved from the subsequence of all
alphabetic characters of the reference, wherever they occur; for a
standard reference — an alphabetic run followed by only non-alphabetic
characters — this coincides with resolving the leading run. -/
theorem C7_alpha_filter_amended (pre post : List Char)
    (hpre : ∀ c ∈ pre, c.isAlpha = true) (hpost : ∀ c ∈ post, c.isAlpha = false) :
    lettersOf (pre ++ post) = pre ∧
    column_name_to_index (lettersOf (pre ++ post)) = column_name_to_index pre := by
  have h1 : lettersOf (pre ++ post) = pre := by
    rw [lettersOf, List.filter_append, List.filter_eq_self.mpr hpre,
      List.filter_eq_nil_iff.mpr
        (fun a ha hpa => Bool.false_ne_true ((hpost a ha) ▸ hpa)),
      List.append_nil]
  exact ⟨h1, by rw [h1]⟩

/-- Witness for the amended C7: the standard reference `C7` splits into
run `C` and tail `7`, and resolves from the run. -/
theorem C7_alpha_filter_amended_witness :
    lettersOf ("C".toList ++ "7".toList) = "C".toList ∧
    column_name_to_index (lettersOf ("C".toList ++ "7".toList)) =
      column_name_to_index "C".toList :=
  C7_alpha_filter_amended "C".toList "7".toList (by decide) (by decide)

/-- C8 counterexample: a cell whose reference `123` contains no alphabetic
character is silently skipped — the row is omitted and the whole
extraction succeeds with no rows — rather than raising an
invalid-reference error as the claim asserts. -/
theorem C8_letterless_counterexample :
    processRow [] [Cell.mk "123".toList none (some "x".toList)] = .ok none ∧
    iter_sheet_rows [] [[Cell.mk "123".toList none (some "x".toList)]] = .ok [] :=
  ⟨rfl, rfl⟩

lemma columnValue_error_of_nonalpha (cs : List Char) : ∀ acc : Nat,
    (∃ x ∈ cs, x.isAlpha = false) →
    columnValue cs acc = .error "Invalid column name" := by
  induction cs with
  | nil =>
      intro acc h
      obtain ⟨x, hx, _⟩ := h
      exact absurd hx (List.not_mem_nil x)
  | cons c rest ih =>
      intro acc h
      by_cases hc : c.isAlpha = true
      · rw [columnValue, if_pos hc]
        obtain ⟨x, hx, hxf⟩ := h
        rcases List.mem_cons.mp hx with rfl | hx'
        · rw [hc] at hxf
          exact Bool.noConfusion hxf
        · exact ih _ ⟨x, hx', hxf⟩
      · rw [columnValue, if_neg hc]

/-- C8 amended: the row extractor silently skips a cell whose reference
contains no alphabetic character (no error, no index); the resolver
`_column_name_to_index` itself errors on any string containing a
non-alphabetic character but returns −1, not an error, on the empty
string — and the extractor never passes it an empty string. -/
theorem C8_letterless_amended (shared : List (List Char)) (c : Cell)
    (rest : List Cell) (acc : List (Int × List Char)) (maxIdx : Int)
    (h : lettersOf c.reference = []) :
    buildCells shared (c :: rest) acc maxIdx = buildCells shared rest acc maxIdx ∧
    (∀ cs : List Char, (∃ x ∈ cs, x.isAlpha = false) →
      column_name_to_index cs = .error "Invalid column name") ∧
    column_name_to_index [] = .ok (-1) := by
  refine ⟨by rw [buildCells, if_pos h], ?_, rfl⟩
  intro cs hcs
  rw [column_name_to_index, columnValue_error_of_nonalpha cs 0 hcs]
  rfl

/-- Witness for the amended C8: the letterless reference `123` makes the
cell loop skip the cell, while calling the resolver on `123` directly is
an error. -/
theorem C8_letterless_amended_witness :
    buildCells [] [Cell.mk "123".toList none (some "x".toList)] [] (-1) =
      buildCells [] [] [] (-1) ∧
    column_name_to_index "123".toList = .error "Invalid column name" := by
  have h := C8_letterless_amended [] (Cell.mk "123".toList none (some "x".toList))
    [] [] (-1) (by decide)
  exact ⟨h.1, h.2.1 "123".toList ⟨'1', by decide, by decide⟩⟩

/-- C9: the writer fails with a fatal error on an empty record sequence —
the error is raised before the destination file is opened, so nothing is
created or modified, which the model renders as producing no lines — and
on a non-empty sequence writes the fixed seven-name header line followed
by exactly one line per record in sequence order. -/
theorem C9_writer (rows : List Listing) :
    (rows = [] → export_to_csv rows = .error "No data available to write") ∧
    (rows ≠ [] →
      export_to_csv rows = .ok (csvLine fieldnames :: rows.map listingLine) ∧
      (rows.map listingLine).length = rows.length) := by
  constructor
  · intro h
    rw [export_to_csv, if_pos h]
  · intro h
    exact ⟨by rw [export_to_csv, if_neg h], List.length_map rows listingLine⟩

/-- Witness for C9: the empty sequence is a fatal error; a one-record
sequence produces the header line and one record line. -/
theorem C9_writer_witness :
    export_to_csv [] = .error "No data available to write" ∧
    export_to_csv [Listing.mk "a".toList 1 2 3 4 5 6] =
      .ok (csvLine fieldnames :: [Listing.mk "a".toList 1 2 3 4 5 6].map listingLine) :=
  ⟨(C9_writer []).1 rfl, ((C9_writer [Listing.mk "a".toList 1 2 3 4 5 6]).2
    (by simp)).1⟩

/-- C10: a cell marked as a shared-string reference whose value node is
absent or empty yields the empty string, for every shared-string table —
so the table is never consulted and no index error can arise from such a
cell. -/
theorem C10_empty_shared_cell (shared : List (List Char)) (cell : Cell)
    (ht : cell.cellType = some ['s'])
    (hv : cell.value = none ∨ cell.value = some []) :
    cellValue shared cell = .ok [] := by
  have hraw : cell.value.getD [] = [] := by
    rcases hv with hv | hv <;> rw [hv] <;> rfl
  rw [cellValue, if_neg (fun hand => hand.2 hraw), hraw]

/-- Witness for C10: an absent value node and an empty-text value node
both yield the empty string with no table access. -/
theorem C10_empty_shared_cell_witness :
    cellValue [] (Cell.mk "A1".toList (some ['s']) none) = .ok [] ∧
    cellValue ["a".toList] (Cell.mk "B2".toList (some ['s']) (some [])) = .ok [] :=
  ⟨C10_empty_shared_cell [] (Cell.mk "A1".toList (some ['s']) none) rfl (Or.inl rfl),
   C10_empty_shared_cell ["a".toList] (Cell.mk "B2".toList (some ['s']) (some []))
     rfl (Or.inr rfl)⟩

end CleanData
